import Mathlib

/-!
# Verification development for `src/js/main.js`

A shallow embedding of the page-enhancement script (language toggle, navigation,
back-to-top button, form validation, video coordination) together with the
properties stated about it.

Conventions used by the embedding:

* a JavaScript string is a Lean `String`; its characters are read with `String.toList`.
  None of the characters the script distinguishes (white space, `@`, `.`, digits, ...)
  lies outside the Basic Multilingual Plane, so reading code points instead of UTF-16
  code units does not change any test the script performs;
* `null` / `undefined` results of DOM lookups are `Option.none`;
* a thrown JavaScript exception is `Except.error`;
* an element handle of a `NodeList` is its position in the list, or, inside the
  document tree, its path from the root.
-/

/-! ## JavaScript strings -/

namespace Js

/-- The code points matched by `\s` and stripped by `String.prototype.trim`
(ECMAScript `WhiteSpace` and `LineTerminator`). -/
def isWhiteSpace (c : Char) : Bool :=
  let n := c.toNat
  n == 9 || n == 10 || n == 11 || n == 12 || n == 13 || n == 32 || n == 160 || n == 5760 ||
  (8192 ≤ n && n ≤ 8202) || n == 8232 || n == 8233 || n == 8239 || n == 8287 ||
  n == 12288 || n == 65279

/-- The string without its leading white space. -/
def trimStart (s : List Char) : List Char :=
  s.dropWhile isWhiteSpace

/-- The string without its trailing white space. -/
def trimEnd (s : List Char) : List Char :=
  (s.reverse.dropWhile isWhiteSpace).reverse

/-- `String.prototype.trim`. -/
def trim (s : List Char) : List Char :=
  trimEnd (trimStart s)

/-- One item of a regular expression that is a sequence of character classes,
each taken once or under the `+` quantifier. -/
inductive Atom where
  | one (cls : Char → Bool)
  | plus (cls : Char → Bool)

/-- `RegExp.prototype.test` for a pattern `^ a₁ a₂ ... aₙ $` (no flags): the whole
string has to be consumed; `+` is tried with every possible number of repetitions. -/
def test : List Atom → List Char → Bool
  | [], s => s.isEmpty
  | _ :: _, [] => false
  | .one cls :: rest, c :: s => cls c && test rest s
  | .plus cls :: rest, c :: s => cls c && (test (.plus cls :: rest) s || test rest s)

/-- `element.classList.contains(name)`. -/
def classContains (classList : List String) (name : String) : Bool :=
  classList.contains name

/-- `element.classList.add(name)`. -/
def classAdd (classList : List String) (name : String) : List String :=
  if classList.contains name then classList else classList ++ [name]

/-- `element.classList.remove(name)`. -/
def classRemove (classList : List String) (name : String) : List String :=
  classList.filter (fun c => c != name)

/-- `element.classList.toggle(name)`. -/
def classToggle (classList : List String) (name : String) : List String :=
  if classList.contains name then classRemove classList name else classList ++ [name]

end Js

/-! ## Listeners and exceptions -/

/-- The event listeners the script installs. -/
inductive Listener where
  | langToggleClick
  | navScroll
  | navToggleClick
  | navLinkClick (link : Nat)
  | documentClick
  | backToTopScroll
  | backToTopClick
  deriving DecidableEq

/-- The exceptions a listener can raise. -/
inductive JsError where
  /-- reading a property of `null` -/
  | typeError (property : String)
  deriving DecidableEq

/-! ## The document tree -/

namespace Dom

/-- A node of the document: a text node, or an element with its tag name, its `id`
(empty when it has none), its class list, its other attributes and its child nodes. -/
inductive Node where
  | text (data : String)
  | element (tagName : String) (id : String) (classList : List String)
      (attributes : List (String × String)) (children : List Node)

/-- A handle on a node of the tree: the child positions leading to it from the root. -/
abbrev Path := List Nat

/-- `element.getAttribute(name)`. -/
def getAttribute (attributes : List (String × String)) (name : String) : Option String :=
  (attributes.find? fun a => a.1 == name).map fun a => a.2

/-- `element.hasAttribute(name)`, the test behind the selector `[name]`. -/
def hasAttribute (attributes : List (String × String)) (name : String) : Bool :=
  (getAttribute attributes name).isSome

mutual
/-- The getter of `node.textContent`: the text of all descendants, in order. -/
def Node.textContent : Node → String
  | .text data => data
  | .element _ _ _ _ children => textContentList children
/-- The concatenated `textContent` of a list of sibling nodes. -/
def textContentList : List Node → String
  | [] => ""
  | child :: rest => child.textContent ++ textContentList rest
end

/-- The setter of `node.textContent`: the children of an element are replaced by a
single text node (by nothing for the empty string). -/
def Node.setTextContent (text : String) : Node → Node
  | .text _ => .text text
  | .element tagName id classList attributes _ =>
    .element tagName id classList attributes (if text == "" then [] else [.text text])

/-- The node a handle points to. -/
def nodeAt : Node → Path → Option Node
  | node, [] => some node
  | .text _, _ :: _ => none
  | .element _ _ _ _ children, i :: rest =>
    match children[i]? with
    | some child => nodeAt child rest
    | none => none

/-- The assignment `handle.textContent = text` inside the tree. -/
def setTextContentAt (text : String) : Node → Path → Node
  | node, [] => node.setTextContent text
  | .text data, _ :: _ => .text data
  | .element tagName id classList attributes children, i :: rest =>
    match children[i]? with
    | some child =>
      .element tagName id classList attributes
        (children.set i (setTextContentAt text child rest))
    | none => .element tagName id classList attributes children

mutual
/-- The first element in document order, the node itself included, that a selector
matches. -/
def findFirst (sel : Node → Bool) : Node → Option Path
  | .text _ => none
  | .element tagName id classList attributes children =>
    if sel (.element tagName id classList attributes children) then some []
    else findFirstList sel 0 children
/-- The first match among sibling nodes and their descendants; `i` is the position of
the first sibling. -/
def findFirstList (sel : Node → Bool) : Nat → List Node → Option Path
  | _, [] => none
  | i, child :: rest =>
    match findFirst sel child with
    | some path => some (i :: path)
    | none => findFirstList sel (i + 1) rest
end

/-- The selector `#id`. -/
def hasId (id : String) : Node → Bool
  | .text _ => false
  | .element _ nodeId _ _ _ => nodeId == id

/-- The selector `.name`. -/
def hasClass (name : String) : Node → Bool
  | .text _ => false
  | .element _ _ classList _ _ => Js.classContains classList name

/-- The selector `[data-kr][data-en]`. -/
def isTagged : Node → Bool
  | .text _ => false
  | .element _ _ _ attributes _ =>
    hasAttribute attributes "data-kr" && hasAttribute attributes "data-en"

/-- The selector `title[data-kr][data-en]`. -/
def isTaggedTitle : Node → Bool
  | .text _ => false
  | .element tagName id classList attributes children =>
    tagName == "title" && isTagged (.element tagName id classList attributes children)

/-- `document.getElementById(id)`. -/
def getElementById (root : Node) (id : String) : Option Path :=
  findFirst (hasId id) root

/-- `document.querySelector(sel)`. -/
def querySelector (root : Node) (sel : Node → Bool) : Option Path :=
  findFirst sel root

/-- `base.querySelector(sel)`: the first match among the descendants of `base`. -/
def querySelectorIn (root : Node) (base : Path) (sel : Node → Bool) : Option Path :=
  match nodeAt root base with
  | some (.element _ _ _ _ children) => (findFirstList sel 0 children).map fun p => base ++ p
  | _ => none

/-- The document: its root element and `document.documentElement.lang`. -/
structure Document where
  lang : String
  root : Node

end Dom

/-! ## Language toggle (`class LanguageToggle`) -/

/-- `localStorage`: the value stored under each key, if any. -/
abbrev Storage := String → Option String

/-- `localStorage.getItem(key)`. -/
def Storage.getItem (storage : Storage) (key : String) : Option String :=
  storage key

/-- `localStorage.setItem(key, value)`. -/
def Storage.setItem (storage : Storage) (key value : String) : Storage :=
  fun k => if k = key then some value else storage k

/-- An empty `localStorage`. -/
def Storage.empty : Storage :=
  fun _ => none

namespace LanguageToggle

open Dom

/-- The expression
`lang === 'ko' ? element.getAttribute('data-kr') : element.getAttribute('data-en')`. -/
def translation (lang : String) (attributes : List (String × String)) : Option String :=
  if lang == "ko" then getAttribute attributes "data-kr" else getAttribute attributes "data-en"

mutual
/-- The loop `elements.forEach(...)` of `applyLanguage` over the static node list of
`querySelectorAll('[data-kr][data-en]')`, as its effect on the document tree. The
list is in document order, so an element is visited after its ancestors; when an
ancestor has been overwritten the element is no longer part of the document and the
write to it leaves the document as it is. -/
def applyTexts (lang : String) : Node → Node
  | .text data => .text data
  | .element tagName id classList attributes children =>
    if hasAttribute attributes "data-kr" && hasAttribute attributes "data-en" then
      match translation lang attributes with
      | some text =>
        if text != "" then .element tagName id classList attributes [.text text]
        else .element tagName id classList attributes (applyTextsList lang children)
      | none => .element tagName id classList attributes (applyTextsList lang children)
    else .element tagName id classList attributes (applyTextsList lang children)
/-- The loop of `applyLanguage` on a list of sibling nodes. -/
def applyTextsList (lang : String) : List Node → List Node
  | [] => []
  | child :: rest => applyTexts lang child :: applyTextsList lang rest
end

/-- The element `langText` of `applyLanguage`: the first `.nav__lang-text` inside the
element of id `lang-toggle`, when both exist. -/
def langText (root : Node) : Option Path :=
  match getElementById root "lang-toggle" with
  | some toggleBtn => querySelectorIn root toggleBtn (hasClass "nav__lang-text")
  | none => none

/-- The block "Update toggle button text" of `applyLanguage`. -/
def applyLabel (lang : String) (root : Node) : Node :=
  match langText root with
  | some langText => setTextContentAt (if lang == "ko" then "EN" else "KR") root langText
  | none => root

/-- The block "Update page title" of `applyLanguage`. -/
def applyTitle (lang : String) (root : Node) : Node :=
  match querySelector root isTaggedTitle with
  | some title =>
    match nodeAt root title with
    | some (.element _ _ _ attributes _) =>
      match translation lang attributes with
      | some titleText => if titleText != "" then setTextContentAt titleText root title else root
      | none => root
    | _ => root
  | none => root

/-- Method `applyLanguage(lang)`. -/
def applyLanguage (lang : String) (doc : Document) : Document :=
  let root := applyTexts lang doc.root
  let root := applyLabel lang root
  let root := applyTitle lang root
  { root := root, lang := lang }

/-- The field of a `LanguageToggle` object. -/
structure State where
  currentLang : String
  deriving DecidableEq

/-- Method `setupEventListeners()`: the click listener is installed when the toggle
button exists. -/
def setupEventListeners (doc : Document) : List Listener :=
  if (getElementById doc.root "lang-toggle").isSome then [Listener.langToggleClick] else []

/-- The expression `localStorage.getItem('language') || 'ko'`. -/
def storedLanguage (storage : Storage) : String :=
  match storage.getItem "language" with
  | some value => if value != "" then value else "ko"
  | none => "ko"

/-- The constructor together with `init()`: the new object, the document after
`applyLanguage`, and the listeners installed. -/
def construct (storage : Storage) (doc : Document) : State × Document × List Listener :=
  let this : State := { currentLang := storedLanguage storage }
  let doc := applyLanguage this.currentLang doc
  (this, doc, setupEventListeners doc)

/-- Method `toggleLanguage()`. -/
def toggleLanguage (this : State) (storage : Storage) (doc : Document) :
    State × Storage × Document :=
  let this : State := { currentLang := if this.currentLang == "ko" then "en" else "ko" }
  let storage := storage.setItem "language" this.currentLang
  (this, storage, applyLanguage this.currentLang doc)

/-- Two calls of `toggleLanguage()` in a row. -/
def toggleTwice (this : State) (storage : Storage) (doc : Document) :
    State × Storage × Document :=
  let once := toggleLanguage this storage doc
  toggleLanguage once.1 once.2.1 once.2.2

mutual
/-- Whether the loop of `applyLanguage` writes to the node or to one of its
descendants: some element of the subtree carries both attributes and the one for
`lang` is not empty. -/
def writesInto (lang : String) : Node → Bool
  | .text _ => false
  | .element _ _ _ attributes children =>
    (hasAttribute attributes "data-kr" && hasAttribute attributes "data-en" &&
      (translation lang attributes).any fun text => text != "") ||
    writesIntoList lang children
/-- Whether the loop writes into one of the sibling nodes. -/
def writesIntoList (lang : String) : List Node → Bool
  | [] => false
  | child :: rest => writesInto lang child || writesIntoList lang rest
end

/-- The attribute that matches a language flag. -/
def flagAttribute (lang : String) : String :=
  if lang = "ko" then "data-kr" else "data-en"

/-- A page whose toggle-button label carries both text attributes. -/
def labelledPage : Document :=
  { lang := "ko"
    root := .element "html" "" [] []
      [.element "body" "" [] []
        [.element "button" "lang-toggle" [] []
          [.element "span" "" ["nav__lang-text"]
            [("data-kr", "한국어"), ("data-en", "English")] [.text "EN"]]]] }

/-- A page with a paragraph whose Korean attribute is empty and which holds a tagged
`<b>` element. -/
def nestedPage : Document :=
  { lang := "ko"
    root := .element "html" "" [] []
      [.element "body" "" [] []
        [.element "p" "" [] [("data-kr", ""), ("data-en", "Hello")]
          [.text "Hello ", .element "b" "" [] [("data-kr", "세계"), ("data-en", "world")]
            [.text "world"]]]] }

/-- A page with one tagged heading and the toggle button. -/
def samplePage : Document :=
  { lang := ""
    root := .element "html" "" [] []
      [.element "head" "" [] []
        [.element "title" "" [] [("data-kr", "회사"), ("data-en", "Company")] [.text "회사"]],
       .element "body" "" [] []
        [.element "h1" "" [] [("data-kr", "환영"), ("data-en", "Welcome")] [.text "환영"],
         .element "p" "" [] [("data-kr", ""), ("data-en", "Intro")] [.text "소개"],
         .element "button" "lang-toggle" [] []
          [.element "span" "" ["nav__lang-text"] [] [.text "EN"]]]] }

end LanguageToggle

/-! ## Form validation (`class FormValidation`) -/

namespace FormValidation

/-- An element following a form control among its siblings. -/
structure Sibling where
  classList : List String
  textContent : String
  deriving DecidableEq

/-- A form control: what `validateForm`, `showError` and `clearError` read and write. -/
structure Field where
  tagName : String
  required : Bool
  type : String
  value : String
  classList : List String
  /-- the element siblings after the control, nearest first -/
  following : List Sibling
  deriving DecidableEq

/-- A form: its controls in document order. -/
structure Form where
  fields : List Field
  deriving DecidableEq

/-- The class `[^\s@]`. -/
def notSpaceNorAt (c : Char) : Bool :=
  !(Js.isWhiteSpace c || c == '@')

/-- The pattern `/^[^\s@]+@[^\s@]+\.[^\s@]+$/`. -/
def emailPattern : List Js.Atom :=
  [.plus notSpaceNorAt, .one (fun c => c == '@'), .plus notSpaceNorAt,
   .one (fun c => c == '.'), .plus notSpaceNorAt]

/-- The class `[0-9-+().\s]`. -/
def phoneClass (c : Char) : Bool :=
  ('0' ≤ c && c ≤ '9') || c == '-' || c == '+' || c == '(' || c == ')' || c == '.' ||
  Js.isWhiteSpace c

/-- The pattern `/^[0-9-+().\s]+$/`. -/
def phonePattern : List Js.Atom :=
  [.plus phoneClass]

/-- Method `showError(input, message)`. -/
def showError (input : Field) (message : String) : Field :=
  let input := { input with classList := Js.classAdd input.classList "input-error" }
  match input.following with
  | [] => { input with following := [⟨["error-message"], message⟩] }
  | errorElement :: rest =>
    if !Js.classContains errorElement.classList "error-message" then
      { input with following := ⟨["error-message"], message⟩ :: errorElement :: rest }
    else
      { input with following := { errorElement with textContent := message } :: rest }

/-- Method `clearError(input)`. -/
def clearError (input : Field) : Field :=
  let input := { input with classList := Js.classRemove input.classList "input-error" }
  match input.following with
  | [] => input
  | errorElement :: rest =>
    if Js.classContains errorElement.classList "error-message" then
      { input with following := rest }
    else input

/-- The first block of the `forEach` callback of `validateForm`: the required test. -/
def checkRequired (input : Field) (isValid : Bool) : Field × Bool :=
  if (Js.trim input.value.toList).isEmpty then
    (showError input "This field is required", false)
  else
    (clearError input, isValid)

/-- The second block of the callback: email validation. -/
def checkEmail (input : Field) (isValid : Bool) : Field × Bool :=
  if input.type == "email" && !(Js.trim input.value.toList).isEmpty then
    if !Js.test emailPattern (Js.trim input.value.toList) then
      (showError input "Please enter a valid email address", false)
    else (input, isValid)
  else (input, isValid)

/-- The third block of the callback: phone validation. -/
def checkPhone (input : Field) (isValid : Bool) : Field × Bool :=
  if input.type == "tel" && !(Js.trim input.value.toList).isEmpty then
    if !Js.test phonePattern (Js.trim input.value.toList) then
      (showError input "Please enter a valid phone number", false)
    else (input, isValid)
  else (input, isValid)

/-- The body of the `inputs.forEach` callback of `validateForm`, threading `isValid`. -/
def validateInput (input : Field) (isValid : Bool) : Field × Bool :=
  let r := checkRequired input isValid
  let r := checkEmail r.1 r.2
  checkPhone r.1 r.2

/-- The selector `input[required], textarea[required], select[required]`. -/
def isRequiredControl (f : Field) : Bool :=
  (f.tagName == "input" || f.tagName == "textarea" || f.tagName == "select") && f.required

/-- The `forEach` of `validateForm` over the controls of the form: the selected
ones are validated in document order, the others are left alone. -/
def validateFields : List Field → Bool → List Field × Bool
  | [], isValid => ([], isValid)
  | input :: rest, isValid =>
    if isRequiredControl input then
      let r := validateInput input isValid
      let rs := validateFields rest r.2
      (r.1 :: rs.1, rs.2)
    else
      let rs := validateFields rest isValid
      (input :: rs.1, rs.2)

/-- Method `validateForm(form)`: the form with its error marks, and `isValid`. -/
def validateForm (form : Form) : Form × Bool :=
  let r := validateFields form.fields true
  (⟨r.1⟩, r.2)

/-- The `submit` listener installed by `init`: the form afterwards, and whether
`e.preventDefault()` was called. -/
def submitHandler (form : Form) : Form × Bool :=
  let r := validateForm form
  if !r.2 then (r.1, true) else (r.1, false)

/-- The three tests of `validateInput` taken together: the value trimmed is not
empty, an email value matches `emailPattern`, a telephone value matches `phonePattern`. -/
def inputOk (f : Field) : Bool :=
  !(Js.trim f.value.toList).isEmpty &&
  !(f.type == "email" && !Js.test emailPattern (Js.trim f.value.toList)) &&
  !(f.type == "tel" && !Js.test phonePattern (Js.trim f.value.toList))

/-- The failure condition in the words of the specification: the value is empty or
whitespace-only, or the field is typed email and its trimmed value does not match the
email pattern, or it is typed tel and its trimmed value does not match the phone
pattern. -/
def FailsValidation (f : Field) : Prop :=
  (f.value = "" ∨ ∀ c ∈ f.value.toList, Js.isWhiteSpace c = true) ∨
  (f.type = "email" ∧ Js.test emailPattern (Js.trim f.value.toList) = false) ∨
  (f.type = "tel" ∧ Js.test phonePattern (Js.trim f.value.toList) = false)

instance (f : Field) : Decidable (FailsValidation f) := by
  unfold FailsValidation
  infer_instance

/-- A value that is neither empty nor whitespace-only. -/
def NonBlank (value : String) : Prop :=
  ∃ c ∈ value.toList, Js.isWhiteSpace c = false

instance (value : String) : Decidable (NonBlank value) := by
  unfold NonBlank
  infer_instance

/-- The form `X@Y.Z` with `X`, `Y`, `Z` non-empty strings over the class `cls`. -/
def HasEmailShape (cls : Char → Bool) (s : List Char) : Prop :=
  ∃ X Y Z : List Char, X ≠ [] ∧ Y ≠ [] ∧ Z ≠ [] ∧
    (∀ c ∈ X, cls c = true) ∧ (∀ c ∈ Y, cls c = true) ∧ (∀ c ∈ Z, cls c = true) ∧
    s = X ++ ['@'] ++ Y ++ ['.'] ++ Z

/-- A required text field. -/
def textField (value : String) : Field :=
  ⟨"input", true, "text", value, [], []⟩

/-- A required email field. -/
def emailField (value : String) : Field :=
  ⟨"input", true, "email", value, [], []⟩

/-- A required telephone field. -/
def telField (value : String) : Field :=
  ⟨"input", true, "tel", value, [], []⟩

end FormValidation

/-! ## Navigation (`class Navigation`) and the back-to-top button (`class BackToTop`) -/

namespace Navigation

/-- The pieces of `pathname.split('/')`, for a path given by its characters. -/
def splitSlash : List Char → List (List Char)
  | [] => [[]]
  | c :: s =>
    if c == '/' then [] :: splitSlash s
    else
      match splitSlash s with
      | [] => [[c]]
      | piece :: pieces => (c :: piece) :: pieces

/-- The expression `window.location.pathname.split('/').pop() || 'index.html'`. -/
def currentPage (pathname : String) : String :=
  match (splitSlash pathname.toList).getLast? with
  | some piece => if String.mk piece != "" then String.mk piece else "index.html"
  | none => "index.html"

/-- A navigation link (an element of class `nav__link`): the result of
`getAttribute('href')` and its class list. -/
structure Link where
  href : Option String
  classList : List String
  deriving DecidableEq

/-- Whether the link carries the class `nav__link--active`. -/
def Link.isActive (link : Link) : Bool :=
  Js.classContains link.classList "nav__link--active"

/-- Method `highlightActiveLink()`, on the links selected by `.nav__link`. -/
def highlightActiveLink (pathname : String) (navLinks : List Link) : List Link :=
  let currentPage := currentPage pathname
  navLinks.map fun link =>
    let linkPage := link.href
    if linkPage == some currentPage || (currentPage == "" && linkPage == some "index.html") then
      { link with classList := Js.classAdd link.classList "nav__link--active" }
    else
      { link with classList := Js.classRemove link.classList "nav__link--active" }

/-- The menu toggle button: its `<i>` icon, when it has one. -/
structure Toggle where
  icon : Option (List String)
  deriving DecidableEq

/-- The fields of a `Navigation` object set by the constructor, each the result of a
`getElementById` (the class list of the element found, or `none`), and the links
inside the menu. -/
structure State where
  nav : Option (List String)
  navToggle : Option Toggle
  navMenu : Option (List String)
  menuLinks : Nat
  deriving DecidableEq

/-- Method `setupScrollEffect()`: the listener is installed whatever `this.nav` is. -/
def setupScrollEffect (_this : State) : List Listener :=
  [Listener.navScroll]

/-- Method `setupMobileMenu()`: listeners are installed only when both the toggle
and the menu exist. -/
def setupMobileMenu (this : State) : List Listener :=
  if this.navToggle.isSome && this.navMenu.isSome then
    [Listener.navToggleClick] ++ (List.range this.menuLinks).map Listener.navLinkClick ++
      [Listener.documentClick]
  else []

/-- Method `init()`, as far as listeners go. -/
def init (this : State) : List Listener :=
  setupScrollEffect this ++ setupMobileMenu this

/-- The `scroll` listener of `setupScrollEffect`: `this.nav.classList` is read
without an existence check. -/
def scrollListener (this : State) (pageYOffset : Int) : Except JsError State :=
  match this.nav with
  | none => .error (.typeError "classList")
  | some classList =>
    if pageYOffset > 100 then
      .ok { this with nav := some (Js.classAdd classList "nav--scrolled") }
    else
      .ok { this with nav := some (Js.classRemove classList "nav--scrolled") }

/-- The `click` listener of the menu toggle. It is installed only when both elements
exist; run on a state without them it has nothing to act on. -/
def toggleClickListener (this : State) : Except JsError State :=
  match this.navToggle, this.navMenu with
  | some toggle, some menu =>
    .ok { this with
      navMenu := some (Js.classToggle menu "active")
      navToggle := some
        { icon := toggle.icon.map fun icon =>
            Js.classToggle (Js.classToggle icon "fa-bars") "fa-times" } }
  | _, _ => .error (.typeError "classList")

/-- The menu is closed: the body shared by the link listener and the document listener. -/
def closeMenu (this : State) : Except JsError State :=
  match this.navToggle, this.navMenu with
  | some toggle, some menu =>
    .ok { this with
      navMenu := some (Js.classRemove menu "active")
      navToggle := some
        { icon := toggle.icon.map fun icon =>
            Js.classRemove (Js.classAdd icon "fa-bars") "fa-times" } }
  | _, _ => .error (.typeError "classList")

/-- The `click` listener on `document`: `insideMenu` and `insideToggle` are the results
of the two `contains(e.target)` tests. -/
def documentClickListener (this : State) (insideMenu insideToggle : Bool) :
    Except JsError State :=
  if !insideMenu && !insideToggle then closeMenu this else .ok this

end Navigation

namespace BackToTop

/-- The field `button` of a `BackToTop` object: the class list of `#back-to-top`, or
`none`. -/
structure State where
  button : Option (List String)
  deriving DecidableEq

/-- Method `init()`: returns at once when there is no button. -/
def init (this : State) : List Listener :=
  if this.button.isNone then []
  else [Listener.backToTopScroll, Listener.backToTopClick]

/-- The `scroll` listener installed by `init`. -/
def scrollListener (this : State) (pageYOffset : Int) : Except JsError State :=
  match this.button with
  | none => .error (.typeError "classList")
  | some classList =>
    if pageYOffset > 300 then .ok { button := some (Js.classAdd classList "visible") }
    else .ok { button := some (Js.classRemove classList "visible") }

end BackToTop

/-! ## Video coordination (`class VideoPlayer` and the `visibilitychange` listener) -/

namespace VideoPlayer

/-- A `<video>` element: its `paused` attribute, `dataset.wasPlaying` and class list. -/
structure Video where
  paused : Bool
  wasPlaying : Option String
  classList : List String
  deriving DecidableEq

/-- `video.pause()`. -/
def Video.pause (v : Video) : Video :=
  { v with paused := true }

/-- `video.play()`: playback is taken to start. -/
def Video.play (v : Video) : Video :=
  { v with paused := false }

/-- The inner `this.videos.forEach` of the `play` listener, from position `i` on:
every video that is not `video` is paused. -/
def pauseOthers (video : Nat) : Nat → List Video → List Video
  | _, [] => []
  | i, v :: vs => (if i ≠ video then v.pause else v) :: pauseOthers video (i + 1) vs

/-- The `play` listener installed by `init` on the video at position `video` of
`this.videos`. -/
def playListener (videos : List Video) (video : Nat) : List Video :=
  pauseOthers video 0 videos

/-- The `waiting` listener. -/
def waitingListener (v : Video) : Video :=
  { v with classList := Js.classAdd v.classList "loading" }

/-- The `canplay` listener. -/
def canplayListener (v : Video) : Video :=
  { v with classList := Js.classRemove v.classList "loading" }

/-- The `visibilitychange` listener; `hidden` is `document.hidden` and `videos` the
result of `document.querySelectorAll('video')`. -/
def visibilityListener (hidden : Bool) (videos : List Video) : List Video :=
  if hidden then
    videos.map fun video =>
      if !video.paused then ({ video with wasPlaying := some "true" } : Video).pause
      else video
  else
    videos.map fun video =>
      if video.wasPlaying == some "true" then { video.play with wasPlaying := none }
      else video

/-- The number of videos that are playing. -/
def playing (videos : List Video) : Nat :=
  videos.countP fun v => !v.paused

end VideoPlayer

/-! ## Properties of JavaScript strings -/

namespace Js

theorem trim_eq_nil_iff (s : List Char) :
    trim s = [] ↔ ∀ c ∈ s, isWhiteSpace c = true := by
  unfold trim trimEnd trimStart
  rw [List.reverse_eq_nil_iff, List.dropWhile_eq_nil_iff]
  constructor
  · intro h
    have hnil : s.dropWhile isWhiteSpace = [] := by
      by_contra hne
      have hhead := List.head_dropWhile_not isWhiteSpace s hne
      have hmem : (s.dropWhile isWhiteSpace).head hne ∈ (s.dropWhile isWhiteSpace).reverse :=
        List.mem_reverse.mpr (List.head_mem hne)
      have := h _ hmem
      simp_all
    exact List.dropWhile_eq_nil_iff.mp hnil
  · intro h c hc
    have hc2 : c ∈ s.dropWhile isWhiteSpace := List.mem_reverse.mp hc
    exact h c ((List.dropWhile_sublist _).subset hc2)

theorem test_nil (s : List Char) : test [] s = true ↔ s = [] := by
  cases s <;> simp [test]

theorem test_one (cls : Char → Bool) (rest : List Atom) (s : List Char) :
    test (.one cls :: rest) s = true ↔
      ∃ c t, s = c :: t ∧ cls c = true ∧ test rest t = true := by
  cases s with
  | nil => simp [test]
  | cons c t =>
    simp only [test, Bool.and_eq_true, List.cons.injEq]
    constructor
    · rintro ⟨h1, h2⟩
      exact ⟨c, t, ⟨rfl, rfl⟩, h1, h2⟩
    · rintro ⟨d, u, ⟨rfl, rfl⟩, h1, h2⟩
      exact ⟨h1, h2⟩

theorem test_plus (cls : Char → Bool) (rest : List Atom) (s : List Char) :
    test (.plus cls :: rest) s = true ↔
      ∃ x t, x ≠ [] ∧ (∀ c ∈ x, cls c = true) ∧ s = x ++ t ∧ test rest t = true := by
  induction s with
  | nil =>
    simp only [test, Bool.false_eq_true, false_iff]
    rintro ⟨x, t, hx, -, hs, -⟩
    cases x with
    | nil => exact hx rfl
    | cons a x => simp at hs
  | cons c s ih =>
    simp only [test, Bool.and_eq_true, Bool.or_eq_true]
    constructor
    · rintro ⟨hc, h | h⟩
      · obtain ⟨x, t, -, hall, hs, ht⟩ := ih.mp h
        refine ⟨c :: x, t, by simp, ?_, by simp [hs], ht⟩
        intro d hd
        rcases List.mem_cons.mp hd with rfl | hd
        · exact hc
        · exact hall d hd
      · exact ⟨[c], s, by simp, by simpa using hc, by simp, h⟩
    · rintro ⟨x, t, hx, hall, hs, ht⟩
      cases x with
      | nil => exact absurd rfl hx
      | cons a x =>
        simp only [List.cons_append, List.cons.injEq] at hs
        obtain ⟨rfl, rfl⟩ := hs
        refine ⟨hall c (List.mem_cons_self _ _), ?_⟩
        cases x with
        | nil => right; simpa using ht
        | cons b x =>
          left
          exact ih.mpr ⟨b :: x, t, by simp, fun d hd => hall d (List.mem_cons_of_mem _ hd),
            rfl, ht⟩

end Js

/-! ## Properties of form validation -/

namespace FormValidation

theorem showError_type (f : Field) (m : String) : (showError f m).type = f.type := by
  unfold showError
  dsimp only
  split
  · rfl
  · split <;> rfl

theorem showError_value (f : Field) (m : String) : (showError f m).value = f.value := by
  unfold showError
  dsimp only
  split
  · rfl
  · split <;> rfl

theorem clearError_type (f : Field) : (clearError f).type = f.type := by
  unfold clearError
  dsimp only
  split
  · rfl
  · split <;> rfl

theorem clearError_value (f : Field) : (clearError f).value = f.value := by
  unfold clearError
  dsimp only
  split
  · rfl
  · split <;> rfl

theorem checkRequired_spec (f : Field) (v : Bool) :
    (checkRequired f v).1.type = f.type ∧ (checkRequired f v).1.value = f.value ∧
      (checkRequired f v).2 = (v && !(Js.trim f.value.toList).isEmpty) := by
  unfold checkRequired
  cases h1 : (Js.trim f.value.toList).isEmpty <;>
    simp [showError_type, showError_value, clearError_type, clearError_value]

theorem checkEmail_spec (f : Field) (v : Bool) :
    (checkEmail f v).1.type = f.type ∧ (checkEmail f v).1.value = f.value ∧
      (checkEmail f v).2 = (v && !(f.type == "email" && !(Js.trim f.value.toList).isEmpty &&
        !Js.test emailPattern (Js.trim f.value.toList))) := by
  unfold checkEmail
  cases h1 : (f.type == "email") <;> cases h2 : (Js.trim f.value.toList).isEmpty <;>
    cases h3 : Js.test emailPattern (Js.trim f.value.toList) <;>
    simp [showError_type, showError_value]

theorem checkPhone_spec (f : Field) (v : Bool) :
    (checkPhone f v).1.type = f.type ∧ (checkPhone f v).1.value = f.value ∧
      (checkPhone f v).2 = (v && !(f.type == "tel" && !(Js.trim f.value.toList).isEmpty &&
        !Js.test phonePattern (Js.trim f.value.toList))) := by
  unfold checkPhone
  cases h1 : (f.type == "tel") <;> cases h2 : (Js.trim f.value.toList).isEmpty <;>
    cases h3 : Js.test phonePattern (Js.trim f.value.toList) <;>
    simp [showError_type, showError_value]

theorem validateInput_snd (f : Field) (v : Bool) :
    (validateInput f v).2 = (v && inputOk f) := by
  obtain ⟨t1, v1, e1⟩ := checkRequired_spec f v
  obtain ⟨t2, v2, e2⟩ := checkEmail_spec (checkRequired f v).1 (checkRequired f v).2
  obtain ⟨-, -, e3⟩ := checkPhone_spec
    (checkEmail (checkRequired f v).1 (checkRequired f v).2).1
    (checkEmail (checkRequired f v).1 (checkRequired f v).2).2
  have hdef : (validateInput f v).2 =
      (checkPhone (checkEmail (checkRequired f v).1 (checkRequired f v).2).1
        (checkEmail (checkRequired f v).1 (checkRequired f v).2).2).2 := rfl
  rw [hdef, e3, e2, t2, v2, t1, v1, e1]
  unfold inputOk
  cases v <;> cases (Js.trim f.value.toList).isEmpty <;> cases (f.type == "email") <;>
    cases (f.type == "tel") <;> cases Js.test emailPattern (Js.trim f.value.toList) <;>
    cases Js.test phonePattern (Js.trim f.value.toList) <;> rfl

theorem validateFields_snd (fs : List Field) (v : Bool) :
    (validateFields fs v).2 =
      (v && fs.all (fun f => !isRequiredControl f || inputOk f)) := by
  induction fs generalizing v with
  | nil => simp [validateFields]
  | cons f fs ih =>
    unfold validateFields
    by_cases h : isRequiredControl f = true
    · simp [h, ih, validateInput_snd, Bool.and_assoc]
    · simp [h, ih]

theorem submitHandler_snd (form : Form) :
    (submitHandler form).2 =
      !(form.fields.all (fun f => !isRequiredControl f || inputOk f)) := by
  unfold submitHandler validateForm
  simp only [validateFields_snd, Bool.true_and]
  cases (form.fields.all (fun f => !isRequiredControl f || inputOk f)) <;> rfl

theorem trim_isEmpty_iff (value : String) :
    (Js.trim value.toList).isEmpty = true ↔
      (value = "" ∨ ∀ c ∈ value.toList, Js.isWhiteSpace c = true) := by
  rw [List.isEmpty_iff, Js.trim_eq_nil_iff]
  constructor
  · exact Or.inr
  · rintro (h | h)
    · subst h
      intro c hc
      simp at hc
    · exact h

theorem nonBlank_iff (value : String) :
    NonBlank value ↔ (Js.trim value.toList).isEmpty = false := by
  unfold NonBlank
  rw [← Bool.not_eq_true, List.isEmpty_iff, Js.trim_eq_nil_iff]
  push_neg
  simp

theorem inputOk_eq_false_iff (f : Field) : inputOk f = false ↔ FailsValidation f := by
  unfold FailsValidation
  rw [← trim_isEmpty_iff]
  unfold inputOk
  cases (Js.trim f.value.toList).isEmpty <;>
    cases Js.test emailPattern (Js.trim f.value.toList) <;>
    cases Js.test phonePattern (Js.trim f.value.toList) <;>
    by_cases h1 : f.type = "email" <;> by_cases h2 : f.type = "tel" <;> simp [h1, h2]

theorem test_emailPattern_iff (s : List Char) :
    Js.test emailPattern s = true ↔ HasEmailShape notSpaceNorAt s := by
  unfold HasEmailShape
  simp only [emailPattern, Js.test_plus, Js.test_one, Js.test_nil, beq_iff_eq]
  constructor
  · rintro ⟨X, t1, hX, aX, rfl, c, t2, rfl, rfl, Y, t3, hY, aY, rfl, d, t4, rfl, rfl,
      Z, t5, hZ, aZ, rfl, rfl⟩
    exact ⟨X, Y, Z, hX, hY, hZ, aX, aY, aZ, by simp⟩
  · rintro ⟨X, Y, Z, hX, hY, hZ, aX, aY, aZ, rfl⟩
    exact ⟨X, '@' :: (Y ++ '.' :: Z), hX, aX, by simp, '@', Y ++ '.' :: Z, rfl, rfl,
      Y, '.' :: Z, hY, aY, rfl, '.', Z, rfl, rfl, Z, [], hZ, aZ, by simp, rfl⟩

theorem test_phonePattern_iff (s : List Char) :
    Js.test phonePattern s = true ↔ s ≠ [] ∧ ∀ c ∈ s, phoneClass c = true := by
  simp only [phonePattern, Js.test_plus, Js.test_nil]
  constructor
  · rintro ⟨x, t, hx, ax, rfl, rfl⟩
    simpa using ⟨hx, ax⟩
  · rintro ⟨hs, hall⟩
    exact ⟨s, [], hs, hall, by simp, rfl⟩

theorem phoneClass_iff (c : Char) :
    phoneClass c = true ↔
      (('0' ≤ c ∧ c ≤ '9') ∨ c = '-' ∨ c = '+' ∨ c = '(' ∨ c = ')' ∨ c = '.' ∨
        Js.isWhiteSpace c = true) := by
  simp [phoneClass, or_assoc]

theorem validateForm_single (f : Field) (h : isRequiredControl f = true) :
    (validateForm ⟨[f]⟩).2 = inputOk f := by
  simp [validateForm, validateFields, h, validateInput_snd]

/-- Claim C2, counterexample to "X, Y, Z are strings of non-whitespace characters": the
value `a@b@c.d` has the form `X@Y.Z` with `X = a`, `Y = b@c`, `Z = d`, none of which
holds white space, yet the required email field fails validation. -/
theorem second_at_sign_fails :
    isRequiredControl (emailField "a@b@c.d") = true ∧ (emailField "a@b@c.d").type = "email" ∧
      NonBlank (emailField "a@b@c.d").value ∧
      HasEmailShape (fun c => !Js.isWhiteSpace c)
        (Js.trim (emailField "a@b@c.d").value.toList) ∧
      (validateForm ⟨[emailField "a@b@c.d"]⟩).2 = false :=
  ⟨by decide, by decide, ⟨'a', by decide, by decide⟩,
    ⟨['a'], ['b', '@', 'c'], ['d'], by decide, by decide, by decide, by decide, by decide,
      by decide, by decide⟩,
    by decide⟩

/-- Claim C2, as amended: a required email-typed field with a non-blank value passes
validation if and only if its trimmed value has the form `X@Y.Z` where `X`, `Y` and `Z`
are each a non-empty string of characters that are neither white space nor `@`; in
particular `user@example.com` passes and `not-an-email` fails. -/
theorem email_field_passes_iff :
    (∀ f : Field, isRequiredControl f = true → f.type = "email" → NonBlank f.value →
      ((validateForm ⟨[f]⟩).2 = true ↔
        HasEmailShape (fun c => !Js.isWhiteSpace c && c != '@') (Js.trim f.value.toList))) ∧
    (validateForm ⟨[emailField "user@example.com"]⟩).2 = true ∧
    (validateForm ⟨[emailField "not-an-email"]⟩).2 = false := by
  refine ⟨?_, by decide, by decide⟩
  intro f hreq htype hnb
  have hcls : (fun c => !Js.isWhiteSpace c && c != '@') = notSpaceNorAt := by
    funext c
    simp only [notSpaceNorAt, bne]
    cases Js.isWhiteSpace c <;> cases (c == '@') <;> rfl
  rw [validateForm_single f hreq, hcls, ← test_emailPattern_iff]
  have hne := (nonBlank_iff f.value).mp hnb
  have htel : (f.type == "tel") = false := by rw [htype]; decide
  have hem : (f.type == "email") = true := by rw [htype]; decide
  unfold inputOk
  rw [hne, htel, hem]
  cases Js.test emailPattern (Js.trim f.value.toList) <;> simp

/-- Claim C2, instance: the field holding `a@b.c` passes. -/
theorem email_field_passes_iff_witness :
    (validateForm ⟨[emailField "a@b.c"]⟩).2 = true :=
  (email_field_passes_iff.1 (emailField "a@b.c") (by decide) (by decide)
    ⟨'a', by decide, by decide⟩).mpr
    ⟨['a'], ['b'], ['c'], by decide, by decide, by decide, by decide, by decide, by decide,
      by decide⟩

/-- Claim C3: a required tel-typed field with a non-blank value passes validation if and
only if every character of its trimmed value is a digit `0`-`9`, `-`, `+`, `(`, `)`,
`.` or white space; in particular `+1 (555) 123-4567` passes and `abc` fails. -/
theorem tel_field_passes_iff :
    (∀ f : Field, isRequiredControl f = true → f.type = "tel" → NonBlank f.value →
      ((validateForm ⟨[f]⟩).2 = true ↔
        ∀ c ∈ Js.trim f.value.toList,
          ('0' ≤ c ∧ c ≤ '9') ∨ c = '-' ∨ c = '+' ∨ c = '(' ∨ c = ')' ∨ c = '.' ∨
            Js.isWhiteSpace c = true)) ∧
    (validateForm ⟨[telField "+1 (555) 123-4567"]⟩).2 = true ∧
    (validateForm ⟨[telField "abc"]⟩).2 = false := by
  refine ⟨?_, by decide, by decide⟩
  intro f hreq htype hnb
  have hne := (nonBlank_iff f.value).mp hnb
  have hne2 : Js.trim f.value.toList ≠ [] := by
    intro h
    rw [h] at hne
    simp at hne
  have htel : (f.type == "tel") = true := by rw [htype]; decide
  have hem : (f.type == "email") = false := by rw [htype]; decide
  have hok : inputOk f = Js.test phonePattern (Js.trim f.value.toList) := by
    unfold inputOk
    rw [hne, htel, hem]
    cases Js.test phonePattern (Js.trim f.value.toList) <;> rfl
  rw [validateForm_single f hreq, hok, test_phonePattern_iff]
  constructor
  · rintro ⟨-, h⟩ c hc
    exact (phoneClass_iff c).mp (h c hc)
  · intro h
    exact ⟨hne2, fun c hc => (phoneClass_iff c).mpr (h c hc)⟩

/-- Claim C3, instance: the field holding `010-1234` passes. -/
theorem tel_field_passes_iff_witness :
    (validateForm ⟨[telField "010-1234"]⟩).2 = true :=
  (tel_field_passes_iff.1 (telField "010-1234") (by decide) (by decide)
    ⟨'0', by decide, by decide⟩).mpr (by decide)

end FormValidation

/-! ## Properties of the navigation -/

namespace Navigation

theorem classContains_classAdd (classList : List String) (name : String) :
    Js.classContains (Js.classAdd classList name) name = true := by
  unfold Js.classContains Js.classAdd
  split <;> simp_all

theorem classContains_classRemove (classList : List String) (name : String) :
    Js.classContains (Js.classRemove classList name) name = false := by
  unfold Js.classContains Js.classRemove
  simp

theorem splitSlash_spec (s : List Char) :
    ∃ pieces piece pre, splitSlash s = pieces ++ [piece] ∧ '/' ∉ piece ∧ s = pre ++ piece ∧
      (pieces = [] → pre = []) ∧ (pieces ≠ [] → ∃ p, pre = p ++ ['/']) := by
  induction s with
  | nil => exact ⟨[], [], [], rfl, by simp, rfl, fun _ => rfl, fun h => absurd rfl h⟩
  | cons c s ih =>
    obtain ⟨pieces, piece, pre, hsplit, hno, hs, hnil, hcons⟩ := ih
    by_cases hc : c = '/'
    · subst hc
      refine ⟨[] :: pieces, piece, '/' :: pre, ?_, hno, by simp [hs], by simp, fun _ => ?_⟩
      · simp [splitSlash, hsplit]
      · by_cases hp : pieces = []
        · exact ⟨[], by simp [hnil hp]⟩
        · obtain ⟨p, hp2⟩ := hcons hp
          exact ⟨'/' :: p, by simp [hp2]⟩
    · cases pieces with
      | nil =>
        refine ⟨[], c :: piece, [], ?_, ?_, ?_, fun _ => rfl, fun h => absurd rfl h⟩
        · simp [splitSlash, hsplit, hc]
        · simp only [List.mem_cons, not_or]
          exact ⟨fun h => hc h.symm, hno⟩
        · simp [hs, hnil rfl]
      | cons q qs =>
        obtain ⟨p, hp2⟩ := hcons (by simp)
        refine ⟨(c :: q) :: qs, piece, c :: pre, ?_, hno, by simp [hs], by simp,
          fun _ => ⟨c :: p, by simp [hp2]⟩⟩
        simp [splitSlash, hsplit, hc]

/-- Claim C9, counterexample to "exactly one link carries the active class": on the page
`/about.html` a navigation without a link to it ends with no active link, and on the
page `/` a navigation with two links to `index.html` ends with two. -/
theorem not_exactly_one_active_link :
    (highlightActiveLink "/about.html"
        [⟨some "index.html", []⟩, ⟨some "contact.html", []⟩]).countP Link.isActive = 0 ∧
      (highlightActiveLink "/"
        [⟨some "index.html", []⟩, ⟨some "index.html", []⟩]).countP Link.isActive = 2 := by
  decide

/-- Claim C9, as amended: after `highlightActiveLink` the links are the same links in
the same order, and a link carries the active class if and only if its href is
string-equal to the last segment of the path (the part after the last `/`), or to
`index.html` when that segment is empty; so no link, one link or several links may
carry the class. -/
theorem active_iff_href_is_current_page (pathname : String) (navLinks : List Link) :
    (highlightActiveLink pathname navLinks).map Link.href = navLinks.map Link.href ∧
    (∀ link ∈ highlightActiveLink pathname navLinks,
        link.isActive = true ↔ link.href = some (currentPage pathname)) ∧
    (∃ segment : List Char, '/' ∉ segment ∧
        (pathname.toList = segment ∨ ∃ p, pathname.toList = p ++ ['/'] ++ segment) ∧
        currentPage pathname = if segment = [] then "index.html" else String.mk segment) := by
  have hne : currentPage pathname ≠ "" := by
    unfold currentPage
    split
    · split
      · next h => simpa using h
      · decide
    · decide
  have hbody : ∀ l : Link,
      ((if l.href == some (currentPage pathname) ||
            (currentPage pathname == "" && l.href == some "index.html") then
          ({ l with classList := Js.classAdd l.classList "nav__link--active" } : Link)
        else { l with classList := Js.classRemove l.classList "nav__link--active" }).href
          = l.href) ∧
      ((if l.href == some (currentPage pathname) ||
            (currentPage pathname == "" && l.href == some "index.html") then
          ({ l with classList := Js.classAdd l.classList "nav__link--active" } : Link)
        else { l with classList := Js.classRemove l.classList "nav__link--active" }).isActive
          = true ↔ l.href = some (currentPage pathname)) := by
    intro l
    have hfalse : (currentPage pathname == "") = false := by simpa using hne
    rw [hfalse, Bool.false_and, Bool.or_false]
    by_cases h : l.href = some (currentPage pathname)
    · simp [h, Link.isActive, classContains_classAdd]
    · simp [h, Link.isActive, classContains_classRemove]
  refine ⟨?_, ?_, ?_⟩
  · unfold highlightActiveLink
    rw [List.map_map]
    apply List.map_congr_left
    intro l _
    exact (hbody l).1
  · intro link hlink
    unfold highlightActiveLink at hlink
    obtain ⟨l, -, rfl⟩ := List.mem_map.mp hlink
    rw [(hbody l).2, (hbody l).1]
  · obtain ⟨pieces, piece, pre, hsplit, hno, hs, hnil, hcons⟩ := splitSlash_spec pathname.toList
    refine ⟨piece, hno, ?_, ?_⟩
    · by_cases hp : pieces = []
      · left
        rw [hs, hnil hp, List.nil_append]
      · right
        obtain ⟨p, hp2⟩ := hcons hp
        exact ⟨p, by rw [hs, hp2]⟩
    · have hlast : (splitSlash pathname.toList).getLast? = some piece := by
        rw [hsplit]
        simp
      unfold currentPage
      rw [hlast]
      by_cases hpiece : piece = []
      · subst hpiece
        rfl
      · have hmk : (String.mk piece != "") = true := by
          simp only [bne_iff_ne, ne_eq]
          intro h
          exact hpiece (by simpa using congrArg String.data h)
        simp only [hmk, hpiece, if_true, if_false]

/-- Claim C9, instance: on the page `/about.html`, of the links to `index.html` and
`about.html` the active ones are exactly those whose href is `about.html`. -/
theorem active_iff_href_is_current_page_witness :
    ∀ link ∈ highlightActiveLink "/about.html"
        [⟨some "index.html", []⟩, ⟨some "about.html", []⟩],
      link.isActive = true ↔ link.href = some "about.html" :=
  (active_iff_href_is_current_page "/about.html"
    [⟨some "index.html", []⟩, ⟨some "about.html", []⟩]).2.1

/-- Claim C10, the failing path: the `scroll` listener of `Navigation` is installed even
when `#nav` is absent, and it then raises a `TypeError` on every scroll event. -/
theorem scroll_without_nav_raises (navToggle : Option Toggle) (navMenu : Option (List String))
    (menuLinks : Nat) (pageYOffset : Int) :
    Listener.navScroll ∈ init ⟨none, navToggle, navMenu, menuLinks⟩ ∧
      scrollListener ⟨none, navToggle, navMenu, menuLinks⟩ pageYOffset =
        Except.error (JsError.typeError "classList") := by
  constructor
  · simp [init, setupScrollEffect]
  · rfl

end Navigation

/-! ## Properties of the video coordination -/

namespace VideoPlayer

theorem pauseOthers_length (video i : Nat) (vs : List Video) :
    (pauseOthers video i vs).length = vs.length := by
  induction vs generalizing i with
  | nil => rfl
  | cons v vs ih => simp [pauseOthers, ih]

theorem pauseOthers_getElem? (video i k : Nat) (vs : List Video) :
    (pauseOthers video i vs)[k]? =
      (vs[k]?).map fun v => if i + k ≠ video then v.pause else v := by
  induction vs generalizing i k with
  | nil => simp [pauseOthers]
  | cons v vs ih =>
    cases k with
    | zero => simp [pauseOthers]
    | succ k =>
      simp only [pauseOthers, List.getElem?_cons_succ, ih]
      have : i + 1 + k = i + (k + 1) := by omega
      rw [this]

theorem playing_pauseOthers_of_lt (video i : Nat) (vs : List Video) (h : video < i) :
    playing (pauseOthers video i vs) = 0 := by
  induction vs generalizing i with
  | nil => rfl
  | cons v vs ih =>
    have hne : i ≠ video := by omega
    have htail := ih (i + 1) (by omega)
    unfold playing at htail ⊢
    simp only [pauseOthers, hne, ne_eq, not_false_eq_true, if_true]
    rw [List.countP_cons_of_neg]
    · exact htail
    · simp [Video.pause]

theorem playing_pauseOthers_le (video i : Nat) (vs : List Video) :
    playing (pauseOthers video i vs) ≤ 1 := by
  induction vs generalizing i with
  | nil => simp [playing, pauseOthers]
  | cons v vs ih =>
    by_cases hi : i = video
    · have htail := playing_pauseOthers_of_lt video (i + 1) vs (by omega)
      unfold playing at htail ⊢
      simp only [pauseOthers, hi, ne_eq, not_true_eq_false, if_false, List.countP_cons]
      rw [hi] at htail
      rw [htail]
      split <;> simp
    · have htail := ih (i + 1)
      unfold playing at htail ⊢
      simp only [pauseOthers, hi, ne_eq, not_false_eq_true, if_true]
      rw [List.countP_cons_of_neg]
      · exact htail
      · simp [Video.pause]

/-- Claim C6: for the videos held by the `VideoPlayer` and every video `B` among them,
after the `play` listener of `B` has run every video other than `B` is paused, `B`
itself is untouched, and at most one video is playing; so a video `A` that was
playing when `B` started is paused. -/
theorem play_pauses_every_other_video (videos : List Video) (B : Nat)
    (hB : B < videos.length) :
    (playListener videos B).length = videos.length ∧
    (∀ A v, A ≠ B → (playListener videos B)[A]? = some v → v.paused = true) ∧
    (playListener videos B)[B]? = some (videos.get ⟨B, hB⟩) ∧
    playing (playListener videos B) ≤ 1 := by
  refine ⟨pauseOthers_length B 0 videos, ?_, ?_, playing_pauseOthers_le B 0 videos⟩
  · intro A v hA hv
    unfold playListener at hv
    rw [pauseOthers_getElem?] at hv
    cases hget : videos[A]? with
    | none => simp [hget] at hv
    | some w =>
      rw [hget] at hv
      simp only [Nat.zero_add, ne_eq, hA, not_false_eq_true, if_true, Option.map_some',
        Option.some.injEq] at hv
      rw [← hv]
      rfl
  · unfold playListener
    rw [pauseOthers_getElem?]
    simp [List.getElem?_eq_getElem hB]

/-- Claim C6, instance: `A` (position 0) is playing when `B` (position 1) starts; after
the `play` listener of `B`, `A` is paused and only `B` plays. -/
theorem play_pauses_every_other_video_witness :
    (playListener [⟨false, none, []⟩, ⟨false, none, []⟩] 1)[0]? = some ⟨true, none, []⟩ ∧
      playing (playListener [⟨false, none, []⟩, ⟨false, none, []⟩] 1) ≤ 1 :=
  ⟨by decide,
    (play_pauses_every_other_video [⟨false, none, []⟩, ⟨false, none, []⟩] 1 (by decide)).2.2.2⟩

end VideoPlayer

/-! ## Properties of the document tree -/

namespace Dom

theorem nodeAt_text (data : String) (p : Path) (n : Node)
    (h : nodeAt (.text data) p = some n) : p = [] ∧ n = .text data := by
  cases p with
  | nil =>
    simp only [nodeAt, Option.some.injEq] at h
    exact ⟨rfl, h.symm⟩
  | cons i r => simp [nodeAt] at h

theorem nodeAt_append (p r : Path) : ∀ n : Node,
    nodeAt n (p ++ r) = (nodeAt n p).bind fun m => nodeAt m r := by
  induction p with
  | nil => intro n; simp [nodeAt]
  | cons i p ih =>
    intro n
    cases n with
    | text data => simp [nodeAt]
    | element tag id cl attrs cs =>
      simp only [List.cons_append, nodeAt]
      cases cs[i]? with
      | none => rfl
      | some c => exact ih c

theorem nodeAt_below_text_children (tag id : String) (cl : List String)
    (attrs : List (String × String)) (cs : List Node)
    (hcs : ∀ c ∈ cs, ∃ data, c = Node.text data) (r : Path) (hr : r ≠ []) (n : Node)
    (h : nodeAt (.element tag id cl attrs cs) r = some n) :
    ∃ data, n = .text data := by
  cases r with
  | nil => exact absurd rfl hr
  | cons i r =>
    simp only [nodeAt] at h
    split at h
    · next c hc =>
      obtain ⟨hlt, hget⟩ := List.getElem?_eq_some.mp hc
      obtain ⟨data, hdata⟩ := hcs c (by rw [← hget]; exact List.getElem_mem _)
      subst hdata
      exact ⟨data, (nodeAt_text data r n h).2⟩
    · exact absurd h (by simp)

theorem nodeAt_leaf (tag id : String) (cl : List String) (attrs : List (String × String))
    (text : String) (r : Path) (hr : r ≠ []) (n : Node)
    (h : nodeAt (.element tag id cl attrs (if text == "" then [] else [.text text])) r = some n) :
    ∃ data, n = .text data := by
  refine nodeAt_below_text_children tag id cl attrs _ ?_ r hr n h
  intro c hc
  split at hc
  · simp at hc
  · exact ⟨text, by simpa using hc⟩

theorem nodeAt_setTextContentAt (text : String) (q : Path) :
    ∀ (n : Node) (p : Path) (tag id : String) (cl : List String)
      (attrs : List (String × String)) (cs' : List Node),
    nodeAt (setTextContentAt text n q) p = some (.element tag id cl attrs cs') →
      (p = q ∧ cs' = (if text == "" then [] else [.text text]) ∧
        ∃ cs, nodeAt n p = some (.element tag id cl attrs cs)) ∨
      nodeAt n p = some (.element tag id cl attrs cs') ∨
      (∃ r, r ≠ [] ∧ q = p ++ r ∧ ∃ cs, nodeAt n p = some (.element tag id cl attrs cs)) := by
  induction q with
  | nil =>
    intro n p tag id cl attrs cs' h
    cases n with
    | text data =>
      simp only [setTextContentAt, Node.setTextContent] at h
      have := (nodeAt_text _ _ _ h).2
      cases this
    | element tag0 id0 cl0 attrs0 cs0 =>
      simp only [setTextContentAt, Node.setTextContent] at h
      cases p with
      | nil =>
        simp only [nodeAt, Option.some.injEq, Node.element.injEq] at h
        obtain ⟨rfl, rfl, rfl, rfl, rfl⟩ := h
        exact Or.inl ⟨rfl, rfl, cs0, rfl⟩
      | cons i r =>
        obtain ⟨data, hd⟩ := nodeAt_leaf _ _ _ _ _ (i :: r) (by simp) _ h
        cases hd
  | cons j q ih =>
    intro n p tag id cl attrs cs' h
    cases n with
    | text data =>
      simp only [setTextContentAt] at h
      have := (nodeAt_text _ _ _ h).2
      cases this
    | element tag0 id0 cl0 attrs0 cs0 =>
      simp only [setTextContentAt] at h
      cases hj : cs0[j]? with
      | none =>
        simp only [hj] at h
        exact Or.inr (Or.inl h)
      | some c =>
        simp only [hj] at h
        cases p with
        | nil =>
          simp only [nodeAt, Option.some.injEq, Node.element.injEq] at h
          obtain ⟨rfl, rfl, rfl, rfl, -⟩ := h
          exact Or.inr (Or.inr ⟨j :: q, by simp, rfl, cs0, rfl⟩)
        | cons i r =>
          by_cases hij : j = i
          · subst hij
            have hlt : j < cs0.length := (List.getElem?_eq_some.mp hj).1
            simp only [nodeAt, List.getElem?_set_self hlt] at h
            rcases ih c r tag id cl attrs cs' h with ⟨rfl, hcs, cs, hn⟩ | hn | ⟨r', hr', rfl, cs, hn⟩
            · exact Or.inl ⟨rfl, hcs, cs, by simp only [nodeAt, hj]; exact hn⟩
            · exact Or.inr (Or.inl (by simp only [nodeAt, hj]; exact hn))
            · exact Or.inr (Or.inr ⟨r', hr', rfl, cs, by simp only [nodeAt, hj]; exact hn⟩)
          · simp only [nodeAt, List.getElem?_set_ne hij] at h
            exact Or.inr (Or.inl (by simp only [nodeAt]; exact h))

mutual
theorem findFirst_sound (sel : Node → Bool) : ∀ (n : Node) (q : Path),
    findFirst sel n = some q →
      ∃ tag id cl attrs cs, nodeAt n q = some (.element tag id cl attrs cs) ∧
        sel (.element tag id cl attrs cs) = true
  | .text _, q, h => by simp [findFirst] at h
  | .element tag id cl attrs cs, q, h => by
    simp only [findFirst] at h
    split at h
    · next hsel =>
      simp only [Option.some.injEq] at h
      subst h
      exact ⟨tag, id, cl, attrs, cs, rfl, hsel⟩
    · obtain ⟨k, r, c, hq, hc, hr⟩ := findFirstList_sound sel cs 0 q h
      subst hq
      simp only [Nat.zero_add, nodeAt, hc]
      exact hr
theorem findFirstList_sound (sel : Node → Bool) : ∀ (cs : List Node) (i : Nat) (q : Path),
    findFirstList sel i cs = some q →
      ∃ k r c, q = (i + k) :: r ∧ cs[k]? = some c ∧
        ∃ tag id cl attrs ch, nodeAt c r = some (.element tag id cl attrs ch) ∧
          sel (.element tag id cl attrs ch) = true
  | [], i, q, h => by simp [findFirstList] at h
  | c :: cs, i, q, h => by
    simp only [findFirstList] at h
    split at h
    · next path hpath =>
      simp only [Option.some.injEq] at h
      subst h
      exact ⟨0, path, c, rfl, by simp, findFirst_sound sel c path hpath⟩
    · obtain ⟨k, r, d, hq, hd, hr⟩ := findFirstList_sound sel cs (i + 1) q h
      exact ⟨k + 1, r, d, by rw [hq]; congr 1; omega, by simpa using hd, hr⟩
end

theorem querySelectorIn_sound (root : Node) (base : Path) (sel : Node → Bool) (q : Path)
    (h : querySelectorIn root base sel = some q) :
    ∃ tag id cl attrs cs, nodeAt root q = some (.element tag id cl attrs cs) ∧
      sel (.element tag id cl attrs cs) = true := by
  unfold querySelectorIn at h
  split at h
  · next tag0 id0 cl0 attrs0 cs0 hbase =>
    simp only [Option.map_eq_some'] at h
    obtain ⟨path, hpath, rfl⟩ := h
    obtain ⟨k, r, c, hq, hc, hr⟩ := findFirstList_sound sel cs0 0 path hpath
    subst hq
    rw [nodeAt_append, hbase]
    simp only [Option.some_bind, Nat.zero_add, nodeAt, hc]
    exact hr
  · simp at h

end Dom

/-! ## Properties of the language toggle -/

namespace LanguageToggle

open Dom

theorem applyTextsList_getElem? (lang : String) (i : Nat) : ∀ cs : List Node,
    (applyTextsList lang cs)[i]? = (cs[i]?).map (applyTexts lang) := by
  induction i with
  | zero =>
    intro cs
    cases cs <;> simp [applyTextsList]
  | succ i ih =>
    intro cs
    cases cs with
    | nil => simp [applyTextsList]
    | cons c cs => simp [applyTextsList, ih]

theorem applyTexts_element (lang tag id : String) (cl : List String)
    (attrs : List (String × String)) (cs : List Node) :
    ∃ cs1, applyTexts lang (.element tag id cl attrs cs) = .element tag id cl attrs cs1 := by
  simp only [applyTexts]
  split
  · split
    · split
      · exact ⟨_, rfl⟩
      · exact ⟨_, rfl⟩
    · exact ⟨_, rfl⟩
  · exact ⟨_, rfl⟩

theorem applyTexts_written (lang tag id : String) (cl : List String)
    (attrs : List (String × String)) (cs : List Node) (text : String)
    (hkr : hasAttribute attrs "data-kr" = true) (hen : hasAttribute attrs "data-en" = true)
    (htr : translation lang attrs = some text) (hne : text ≠ "") :
    applyTexts lang (.element tag id cl attrs cs) = .element tag id cl attrs [.text text] := by
  have hne2 : (text != "") = true := by simpa using hne
  simp [applyTexts, hkr, hen, htr, hne2]

theorem nodeAt_applyTexts (lang : String) (p : Path) :
    ∀ (n : Node) (tag id : String) (cl : List String) (attrs : List (String × String))
      (cs1 : List Node),
    nodeAt (applyTexts lang n) p = some (.element tag id cl attrs cs1) →
      ∃ cs0, nodeAt n p = some (.element tag id cl attrs cs0) ∧
        applyTexts lang (.element tag id cl attrs cs0) = .element tag id cl attrs cs1 := by
  induction p with
  | nil =>
    intro n tag id cl attrs cs1 h
    cases n with
    | text data => simp [applyTexts, nodeAt] at h
    | element tag0 id0 cl0 attrs0 cs0 =>
      obtain ⟨cs', hcs'⟩ := applyTexts_element lang tag0 id0 cl0 attrs0 cs0
      simp only [nodeAt, Option.some.injEq] at h
      rw [hcs'] at h
      simp only [Node.element.injEq] at h
      obtain ⟨rfl, rfl, rfl, rfl, rfl⟩ := h
      exact ⟨cs0, rfl, hcs'⟩
  | cons i r ih =>
    intro n tag id cl attrs cs1 h
    cases n with
    | text data => simp [applyTexts, nodeAt] at h
    | element tag0 id0 cl0 attrs0 cs0 =>
      have hrec : nodeAt (.element tag0 id0 cl0 attrs0 (applyTextsList lang cs0)) (i :: r) =
          some (.element tag id cl attrs cs1) →
          ∃ cs, nodeAt (.element tag0 id0 cl0 attrs0 cs0) (i :: r) =
              some (.element tag id cl attrs cs) ∧
            applyTexts lang (.element tag id cl attrs cs) = .element tag id cl attrs cs1 := by
        intro h2
        simp only [nodeAt, applyTextsList_getElem?] at h2 ⊢
        cases hc : cs0[i]? with
        | none => simp [hc] at h2
        | some c =>
          simp only [hc, Option.map_some'] at h2 ⊢
          exact ih c tag id cl attrs cs1 h2
      have hleaf : ∀ text : String,
          nodeAt (.element tag0 id0 cl0 attrs0 [.text text]) (i :: r) ≠
            some (.element tag id cl attrs cs1) := by
        intro text h2
        obtain ⟨data, hd⟩ := nodeAt_below_text_children tag0 id0 cl0 attrs0 [.text text]
          (by intro c hc; exact ⟨text, by simpa using hc⟩) (i :: r) (by simp) _ h2
        cases hd
      simp only [applyTexts] at h
      split at h
      · split at h
        · split at h
          · exact absurd h (hleaf _)
          · exact hrec h
        · exact hrec h
      · exact hrec h

mutual
theorem applyTexts_of_not_writesInto (lang : String) : ∀ n : Node,
    writesInto lang n = false → applyTexts lang n = n
  | .text _, _ => by simp [applyTexts]
  | .element tag id cl attrs cs, h => by
    simp only [writesInto, Bool.or_eq_false_iff] at h
    obtain ⟨hself, hcs⟩ := h
    have hrec := applyTextsList_of_not_writesInto lang cs hcs
    simp only [applyTexts, hrec]
    split
    · next htag =>
      split
      · next text htr =>
        split
        · next hne =>
          simp [htag, htr, hne] at hself
        · rfl
      · rfl
    · rfl
theorem applyTextsList_of_not_writesInto (lang : String) : ∀ cs : List Node,
    writesIntoList lang cs = false → applyTextsList lang cs = cs
  | [], _ => by simp [applyTextsList]
  | c :: cs, h => by
    simp only [writesIntoList, Bool.or_eq_false_iff] at h
    simp only [applyTextsList, applyTexts_of_not_writesInto lang c h.1,
      applyTextsList_of_not_writesInto lang cs h.2]
end

theorem writesIntoList_getElem? (lang : String) : ∀ (cs : List Node) (i : Nat) (c : Node),
    writesIntoList lang cs = false → cs[i]? = some c → writesInto lang c = false := by
  intro cs
  induction cs with
  | nil => intro i c _ hc; simp at hc
  | cons d cs ih =>
    intro i c h hc
    simp only [writesIntoList, Bool.or_eq_false_iff] at h
    cases i with
    | zero =>
      simp only [List.getElem?_cons_zero, Option.some.injEq] at hc
      subst hc
      exact h.1
    | succ i => exact ih i c h.2 (by simpa using hc)

theorem writesInto_nodeAt (lang : String) (r : Path) : ∀ (n x : Node),
    writesInto lang n = false → nodeAt n r = some x → writesInto lang x = false := by
  induction r with
  | nil =>
    intro n x h hx
    simp only [nodeAt, Option.some.injEq] at hx
    subst hx
    exact h
  | cons i r ih =>
    intro n x h hx
    cases n with
    | text data => simp [nodeAt] at hx
    | element tag id cl attrs cs =>
      simp only [writesInto, Bool.or_eq_false_iff] at h
      simp only [nodeAt] at hx
      cases hc : cs[i]? with
      | none => simp [hc] at hx
      | some c =>
        simp only [hc] at hx
        exact ih c x (writesIntoList_getElem? lang cs i c h.2 hc) hx

theorem langText_sound (root : Node) (q : Path) (h : langText root = some q) :
    ∃ tag id cl attrs cs, nodeAt root q = some (.element tag id cl attrs cs) := by
  unfold langText at h
  split at h
  · obtain ⟨tag, id, cl, attrs, cs, hn, -⟩ := querySelectorIn_sound _ _ _ _ h
    exact ⟨tag, id, cl, attrs, cs, hn⟩
  · simp at h

theorem nodeAt_applyLabel (lang : String) (root : Node) (p : Path) (tag id : String)
    (cl : List String) (attrs : List (String × String)) (cs2 : List Node)
    (h : nodeAt (applyLabel lang root) p = some (.element tag id cl attrs cs2)) :
    ∃ cs, nodeAt root p = some (.element tag id cl attrs cs) ∧
      (cs2 = cs ∨ ∃ r, langText root = some (p ++ r)) := by
  unfold applyLabel at h
  cases hq : langText root with
  | none =>
    simp only [hq] at h
    exact ⟨cs2, h, Or.inl rfl⟩
  | some q =>
    simp only [hq] at h
    rcases nodeAt_setTextContentAt _ q root p tag id cl attrs cs2 h with
      ⟨rfl, -, cs, hn⟩ | hn | ⟨r, -, rfl, cs, hn⟩
    · exact ⟨cs, hn, Or.inr ⟨[], by simp⟩⟩
    · exact ⟨cs2, hn, Or.inl rfl⟩
    · exact ⟨cs, hn, Or.inr ⟨r, rfl⟩⟩

theorem nodeAt_applyTitle (lang : String) (root : Node) (p : Path) (tag id : String)
    (cl : List String) (attrs : List (String × String)) (cs3 : List Node)
    (h : nodeAt (applyTitle lang root) p = some (.element tag id cl attrs cs3)) :
    ∃ cs, nodeAt root p = some (.element tag id cl attrs cs) ∧
      (cs3 = cs ∨ ∃ r tagT idT clT attrsT csT text,
        nodeAt root (p ++ r) = some (.element tagT idT clT attrsT csT) ∧
        hasAttribute attrsT "data-kr" = true ∧ hasAttribute attrsT "data-en" = true ∧
        translation lang attrsT = some text ∧ text ≠ "" ∧ (r = [] → cs3 = [.text text])) := by
  unfold applyTitle at h
  cases hq : querySelector root isTaggedTitle with
  | none =>
    simp only [hq] at h
    exact ⟨cs3, h, Or.inl rfl⟩
  | some q =>
    obtain ⟨tagT, idT, clT, attrsT, csT, hT, hsel⟩ := findFirst_sound _ _ _ hq
    simp only [hq, hT] at h
    simp only [isTaggedTitle, isTagged, Bool.and_eq_true] at hsel
    cases htr : translation lang attrsT with
    | none =>
      simp only [htr] at h
      exact ⟨cs3, h, Or.inl rfl⟩
    | some text =>
      simp only [htr] at h
      by_cases hne : (text != "") = true
      · simp only [hne, if_true] at h
        have hne2 : text ≠ "" := by simpa using hne
        have hbeq : (text == "") = false := by simpa using hne2
        rcases nodeAt_setTextContentAt _ q root p tag id cl attrs cs3 h with
          ⟨rfl, hcs, cs, hn⟩ | hn | ⟨r, hrne, rfl, cs, hn⟩
        · refine ⟨cs, hn, Or.inr ⟨[], tagT, idT, clT, attrsT, csT, text, by simpa using hT,
            hsel.2.1, hsel.2.2, htr, hne2, fun _ => ?_⟩⟩
          rw [hcs, hbeq]
          rfl
        · exact ⟨cs3, hn, Or.inl rfl⟩
        · exact ⟨cs, hn, Or.inr ⟨r, tagT, idT, clT, attrsT, csT, text, hT, hsel.2.1, hsel.2.2,
            htr, hne2, fun hr => absurd hr hrne⟩⟩
      · simp only [hne, Bool.false_eq_true, if_false] at h
        exact ⟨cs3, h, Or.inl rfl⟩

theorem translation_eq_getAttribute (lang : String) (attrs : List (String × String))
    (hflag : lang = "ko" ∨ lang = "en") :
    translation lang attrs = getAttribute attrs (flagAttribute lang) := by
  rcases hflag with rfl | rfl <;> rfl

theorem textContent_single (tag id : String) (cl : List String)
    (attrs : List (String × String)) (text : String) :
    (Node.element tag id cl attrs [.text text]).textContent = text := by
  simp [Node.textContent, textContentList]

theorem writesInto_of_translated (lang tag id : String) (cl : List String)
    (attrs : List (String × String)) (cs : List Node) (text : String)
    (hkr : hasAttribute attrs "data-kr" = true) (hen : hasAttribute attrs "data-en" = true)
    (htr : translation lang attrs = some text) (hne : text ≠ "") :
    writesInto lang (.element tag id cl attrs cs) = true := by
  have hne2 : (text != "") = true := by simpa using hne
  simp [writesInto, hkr, hen, htr, hne2]

theorem translation_of_ne_ko (lang : String) (h : (lang == "ko") = false)
    (attrs : List (String × String)) : translation lang attrs = translation "en" attrs := by
  simp [translation, h]

mutual
theorem applyTexts_of_ne_ko (lang : String) (h : (lang == "ko") = false) :
    ∀ n : Node, applyTexts lang n = applyTexts "en" n
  | .text _ => by simp [applyTexts]
  | .element _ _ _ attrs cs => by
    simp only [applyTexts, translation_of_ne_ko lang h attrs, applyTextsList_of_ne_ko lang h cs]
theorem applyTextsList_of_ne_ko (lang : String) (h : (lang == "ko") = false) :
    ∀ cs : List Node, applyTextsList lang cs = applyTextsList "en" cs
  | [] => by simp [applyTextsList]
  | c :: cs => by
    simp only [applyTextsList, applyTexts_of_ne_ko lang h c, applyTextsList_of_ne_ko lang h cs]
end

theorem applyLabel_of_ne_ko (lang : String) (h : (lang == "ko") = false) (root : Node) :
    applyLabel lang root = applyLabel "en" root := by
  have hen : ("en" == "ko") = false := by decide
  simp only [applyLabel, h, hen]

theorem applyTitle_of_ne_ko (lang : String) (h : (lang == "ko") = false) (root : Node) :
    applyTitle lang root = applyTitle "en" root := by
  unfold applyTitle
  split
  · split
    · simp only [translation_of_ne_ko lang h]
    · rfl
  · rfl

theorem applyLanguage_of_ne_ko (lang : String) (h : lang ≠ "ko") (doc : Document) :
    applyLanguage lang doc = { applyLanguage "en" doc with lang := lang } := by
  have hb : (lang == "ko") = false := by simpa using h
  simp only [applyLanguage, applyTexts_of_ne_ko lang hb, applyLabel_of_ne_ko lang hb,
    applyTitle_of_ne_ko lang hb]

theorem storedLanguage_of_truthy (storage : Storage) (value : String)
    (h : storage.getItem "language" = some value) (hne : value ≠ "") :
    storedLanguage storage = value := by
  have hb : (value != "") = true := by simpa using hne
  simp [storedLanguage, h, hb]

theorem storedLanguage_setItem (storage : Storage) (value : String) (hne : value ≠ "") :
    storedLanguage (storage.setItem "language" value) = value :=
  storedLanguage_of_truthy _ value (by simp [Storage.getItem, Storage.setItem]) hne

/-- Claim C5, counterexample to "toggling twice restores the stored value": on a first
visit nothing is stored under `language` and the flag is `ko`; after two toggles the
flag is `ko` again, but `ko` is now stored. -/
theorem two_toggles_store_ko_on_first_visit :
    Storage.empty.getItem "language" = none ∧
      (construct Storage.empty samplePage).1.currentLang = "ko" ∧
      (toggleTwice (construct Storage.empty samplePage).1 Storage.empty
        (construct Storage.empty samplePage).2.1).1.currentLang = "ko" ∧
      (toggleTwice (construct Storage.empty samplePage).1 Storage.empty
        (construct Storage.empty samplePage).2.1).2.1.getItem "language" = some "ko" :=
  ⟨rfl, by decide, by decide, by decide⟩

/-- Claim C5, as amended: for a current flag `ko` or `en`, `toggleLanguage` changes the
flag to the other of the two values and writes that value to storage under the key
`language` (no other key changes), so that a `LanguageToggle` constructed afterwards
from the same storage starts with the toggled value; toggling twice restores the
original flag and leaves that flag stored, which restores the storage exactly when the
flag was what was stored before. -/
theorem toggleLanguage_flips_and_persists (this : State) (storage : Storage) (doc : Document)
    (hflag : this.currentLang = "ko" ∨ this.currentLang = "en") :
    (this.currentLang = "ko" → (toggleLanguage this storage doc).1.currentLang = "en") ∧
    (this.currentLang = "en" → (toggleLanguage this storage doc).1.currentLang = "ko") ∧
    (toggleLanguage this storage doc).2.1.getItem "language" =
      some (toggleLanguage this storage doc).1.currentLang ∧
    (∀ key, key ≠ "language" →
      (toggleLanguage this storage doc).2.1.getItem key = storage.getItem key) ∧
    (∀ page, (construct (toggleLanguage this storage doc).2.1 page).1.currentLang =
      (toggleLanguage this storage doc).1.currentLang) ∧
    (toggleTwice this storage doc).1 = this ∧
    (toggleTwice this storage doc).2.1.getItem "language" = some this.currentLang ∧
    ((toggleTwice this storage doc).2.1 = storage ↔
      storage.getItem "language" = some this.currentLang) := by
  obtain ⟨lang⟩ := this
  simp only at hflag
  have hstore : ∀ (s : Storage) (v : String),
      (s.setItem "language" "en").setItem "language" v = s.setItem "language" v ∧
      (s.setItem "language" "ko").setItem "language" v = s.setItem "language" v := by
    intro s v
    constructor <;>
    · funext k
      simp only [Storage.setItem]
      split <;> rfl
  have hiff : ∀ v : String, (storage.setItem "language" v = storage ↔
      storage.getItem "language" = some v) := by
    intro v
    constructor
    · intro h
      have := congrFun h "language"
      simpa [Storage.setItem, Storage.getItem] using this.symm
    · intro h
      funext k
      simp only [Storage.setItem]
      split
      · next hk => rw [hk]; exact h.symm
      · rfl
  rcases hflag with rfl | rfl
  · refine ⟨fun _ => rfl, fun h => absurd h (by decide), rfl, ?_, ?_, rfl, rfl, ?_⟩
    · intro key hkey
      simp [toggleLanguage, Storage.setItem, Storage.getItem, hkey]
    · intro page
      exact storedLanguage_setItem storage "en" (by decide)
    · have : (toggleTwice ⟨"ko"⟩ storage doc).2.1 = storage.setItem "language" "ko" :=
        (hstore storage "ko").1
      rw [this]
      exact hiff "ko"
  · refine ⟨fun h => absurd h (by decide), fun _ => rfl, rfl, ?_, ?_, rfl, rfl, ?_⟩
    · intro key hkey
      simp [toggleLanguage, Storage.setItem, Storage.getItem, hkey]
    · intro page
      exact storedLanguage_setItem storage "ko" (by decide)
    · have : (toggleTwice ⟨"en"⟩ storage doc).2.1 = storage.setItem "language" "en" :=
        (hstore storage "en").2
      rw [this]
      exact hiff "en"

/-- Claim C5, instance: with `ko` stored and current, one toggle stores `en`, a
reload then starts with `en`, and a second toggle is back at `ko`. -/
theorem toggleLanguage_flips_and_persists_witness :
    (toggleLanguage ⟨"ko"⟩ (Storage.empty.setItem "language" "ko") samplePage).1.currentLang
        = "en" ∧
      (construct (toggleLanguage ⟨"ko"⟩ (Storage.empty.setItem "language" "ko")
        samplePage).2.1 samplePage).1.currentLang = "en" ∧
      (toggleTwice ⟨"ko"⟩ (Storage.empty.setItem "language" "ko") samplePage).2.1 =
        Storage.empty.setItem "language" "ko" :=
  ⟨(toggleLanguage_flips_and_persists ⟨"ko"⟩ (Storage.empty.setItem "language" "ko")
      samplePage (Or.inl rfl)).1 rfl,
    by decide,
    (toggleLanguage_flips_and_persists ⟨"ko"⟩ (Storage.empty.setItem "language" "ko")
      samplePage (Or.inl rfl)).2.2.2.2.2.2.2.mpr rfl⟩

/-- Claim C8, counterexample to "treated as falsy and rendered exactly as for `en`": a
stored `fr` is kept as the flag and becomes the document language, where a stored `en`
gives the document language `en`; and a stored empty string, the one value that is
falsy, gives the flag `ko` and the Korean heading. -/
theorem stored_fr_becomes_document_language :
    (construct (Storage.empty.setItem "language" "fr") samplePage).1.currentLang = "fr" ∧
      (construct (Storage.empty.setItem "language" "fr") samplePage).2.1.lang = "fr" ∧
      (construct (Storage.empty.setItem "language" "en") samplePage).2.1.lang = "en" ∧
      (construct (Storage.empty.setItem "language" "") samplePage).1.currentLang = "ko" ∧
      (nodeAt (construct (Storage.empty.setItem "language" "") samplePage).2.1.root
        [1, 0]).map Node.textContent = some "환영" ∧
      (nodeAt (construct (Storage.empty.setItem "language" "en") samplePage).2.1.root
        [1, 0]).map Node.textContent = some "Welcome" :=
  ⟨by decide, by decide, by decide, by decide, by decide, by decide⟩

/-- Claim C8, as amended: for every stored `language` value other than `ko` and `en`:
a non-empty value is truthy and is kept as the flag; the document tree (element texts,
toggle-button label, title) and the listeners are then exactly those obtained for a
stored `en`, while the document language metadata is set to the stored value itself;
the empty string is falsy and the page is constructed exactly as for a stored `ko`. -/
theorem other_stored_value_renders_en_texts (storage : Storage) (doc : Document)
    (value : String) (hstored : storage.getItem "language" = some value)
    (hko : value ≠ "ko") (hen : value ≠ "en") :
    (value ≠ "" →
      (construct storage doc).1.currentLang = value ∧
      (construct storage doc).2.1.lang = value ∧
      (construct storage doc).2.1.root =
        (construct (storage.setItem "language" "en") doc).2.1.root ∧
      (construct storage doc).2.2 = (construct (storage.setItem "language" "en") doc).2.2) ∧
    (value = "" →
      construct storage doc = construct (storage.setItem "language" "ko") doc) := by
  constructor
  · intro hne
    have h1 : storedLanguage storage = value := storedLanguage_of_truthy storage value hstored hne
    have h2 : storedLanguage (storage.setItem "language" "en") = "en" :=
      storedLanguage_setItem storage "en" (by decide)
    simp only [construct, h1, h2, applyLanguage_of_ne_ko value hko, setupEventListeners]
    exact ⟨trivial, trivial, trivial, trivial⟩
  · intro hempty
    subst hempty
    have h1 : storedLanguage storage = "ko" := by
      simp [storedLanguage, hstored]
    have h2 : storedLanguage (storage.setItem "language" "ko") = "ko" :=
      storedLanguage_setItem storage "ko" (by decide)
    simp only [construct, h1, h2]

/-- Claim C8, instance: with `fr` stored, the heading of `samplePage` is the English
one and the document language is `fr`. -/
theorem other_stored_value_renders_en_texts_witness :
    (construct (Storage.empty.setItem "language" "fr") samplePage).2.1.lang = "fr" ∧
      (construct (Storage.empty.setItem "language" "fr") samplePage).2.1.root =
        (construct ((Storage.empty.setItem "language" "fr").setItem "language" "en")
          samplePage).2.1.root :=
  ⟨((other_stored_value_renders_en_texts (Storage.empty.setItem "language" "fr") samplePage
      "fr" rfl (by decide) (by decide)).1 (by decide)).2.1,
    ((other_stored_value_renders_en_texts (Storage.empty.setItem "language" "fr") samplePage
      "fr" rfl (by decide) (by decide)).1 (by decide)).2.2.1⟩

end LanguageToggle

/-! ## Lookups that are guarded, and the play events after a resume -/

namespace LanguageToggle

theorem setupEventListeners_without_button (doc : Dom.Document)
    (h : Dom.getElementById doc.root "lang-toggle" = none) : setupEventListeners doc = [] := by
  simp [setupEventListeners, h]

theorem applyLabel_without_button (lang : String) (root : Dom.Node)
    (h : Dom.getElementById root "lang-toggle" = none) : applyLabel lang root = root := by
  simp [applyLabel, langText, h]

end LanguageToggle

namespace BackToTop

theorem init_without_button : init ⟨none⟩ = [] := rfl

end BackToTop

namespace Navigation

theorem setupMobileMenu_without_toggle (nav navMenu : Option (List String)) (menuLinks : Nat) :
    setupMobileMenu ⟨nav, none, navMenu, menuLinks⟩ = [] := rfl

theorem setupMobileMenu_without_menu (nav : Option (List String)) (navToggle : Option Toggle)
    (menuLinks : Nat) : setupMobileMenu ⟨nav, navToggle, none, menuLinks⟩ = [] := by
  cases navToggle <;> rfl

end Navigation

namespace VideoPlayer

theorem pauseOthers_of_others_paused (video : Nat) : ∀ (vs : List Video) (i : Nat),
    (∀ k v, i + k ≠ video → vs[k]? = some v → v.paused = true) →
      pauseOthers video i vs = vs := by
  intro vs
  induction vs with
  | nil => intro i _; rfl
  | cons v vs ih =>
    intro i h
    have htail : pauseOthers video (i + 1) vs = vs := by
      apply ih
      intro k w hk hw
      exact h (k + 1) w (by omega) (by simpa using hw)
    simp only [pauseOthers, htail]
    by_cases hi : i = video
    · simp [hi]
    · have hp : v.paused = true := h 0 v (by simpa using hi) (by simp)
      simp only [ne_eq, hi, not_false_eq_true, if_true, Video.pause]
      obtain ⟨paused, mark, classList⟩ := v
      simp only at hp
      subst hp
      rfl

/-- When every video other than `video` is paused, the `play` listener of `video`
changes nothing: the play event that follows a resume of the only playing video
leaves the restored state as it is. -/
theorem playListener_of_others_paused (videos : List Video) (video : Nat)
    (h : ∀ k v, k ≠ video → videos[k]? = some v → v.paused = true) :
    playListener videos video = videos :=
  pauseOthers_of_others_paused video videos 0 (by simpa using h)

end VideoPlayer
